import Mathlib

/-!
# Verification of the Khatm scheduler (quran-app backend)

Shallow embedding of `backend/routers/khatm.py` and the relevant parts of
`backend/models.py`.  Calendar dates are modelled as absolute day numbers
(`Int`), with day 0 taken to be a Monday; the weekday abbreviation of a day
is its (lowercased) `strftime("%a")` output, i.e. a function of the day
number modulo 7.  Machine integers are modelled as `Nat`/`Int` (the Python
values in the code are unbounded ints).
-/

namespace QuranApp

/-- `TOTAL_QURAN_VERSES = 6236` (khatm.py line 15). -/
def TOTAL_QURAN_VERSES : Nat := 6236

/-- Frequency type; the pydantic field is a string constrained by the pattern
`^(daily|weekly|custom)$`, so an inductive with the three values is faithful. -/
inductive Freq
| daily
| weekly
| custom
deriving DecidableEq

/-- Lowercased weekday abbreviations as produced by `strftime` with format %a
followed by `.lower()`, indexed so that day number 0 is a Monday. -/
def weekdayAbbrs : List String := ["mon", "tue", "wed", "thu", "fri", "sat", "sun"]

/-- The lowercased weekday abbreviation of an absolute day number. -/
def dayAbbr (d : Int) : String := weekdayAbbrs.getD (d % 7).toNat ""

/-- Python `str.lower()`, restricted to the ASCII weekday tags the code
compares (the corpus of tags is ASCII, where `lower` is per-character). -/
def pyLower (s : String) : String := String.mk (s.data.map Char.toLower)

/-- `day_name in [d.lower() for d in reading_days]` (khatm.py line 74 / 140);
`day_name` is already lowercase. -/
def dayMatches (d : Int) (readingDays : List String) : Bool :=
  (readingDays.map pyLower).contains (dayAbbr d)

/-- A Python-falsy optional list: `None` or the empty list. -/
def isFalsy (o : Option (List String)) : Bool := (o.getD []).isEmpty

/-- The `weekly` counting loop of `create_khatm` (khatm.py lines 70-76): walk
every calendar day from `start_date` to `end_date` inclusive and count the days
whose weekday abbreviation occurs (case-insensitively) in `reading_days`. -/
def countMatchingDays (startDay endDay : Int) (readingDays : List String) : Nat :=
  ((List.range (endDay - startDay + 1).toNat).filter
    (fun i => dayMatches (startDay + (i : Int)) readingDays)).length

/-- `total_sessions` computation of `create_khatm` (khatm.py lines 63-78).
`daily`: `total_days = (end_date - start_date).days + 1`.
`weekly`: the counting loop (`reading_days` is non-falsy there whenever this
code is reached, because of the validation at lines 57-61).
`custom`: `len([d for d in reading_days if d]) if reading_days else total_days`,
i.e. the number of non-empty entries of `reading_days` when the list is truthy,
and `total_days` otherwise. -/
def computeTotalSessions (freq : Freq) (startDay endDay : Int)
    (readingDays : Option (List String)) : Int :=
  let total_days : Int := endDay - startDay + 1
  match freq with
  | Freq.daily => total_days
  | Freq.weekly => (countMatchingDays startDay endDay (readingDays.getD []) : Int)
  | Freq.custom =>
      if isFalsy readingDays then total_days
      else (((readingDays.getD []).filter (fun d => decide (d ≠ ""))).length : Int)

/-- The error taxonomy of the spec, as surfaced by the HTTP layer
(400 validation, 400 conflict on an already-terminal session, 404). -/
inductive ApiError
| validation
| conflict
| notFound
deriving DecidableEq

/-- The validation portion of `create_khatm` (khatm.py lines 56-84): reject
weekly/custom schedules with falsy `reading_days`, compute `total_sessions`,
reject when it equals 0; otherwise creation proceeds and persists the schedule
with the computed `total_sessions`. -/
def createKhatmValidate (freq : Freq) (startDay endDay : Int)
    (readingDays : Option (List String)) : Except ApiError Int :=
  if (freq = Freq.weekly ∨ freq = Freq.custom) ∧ isFalsy readingDays then
    Except.error ApiError.validation
  else
    let t := computeTotalSessions freq startDay endDay readingDays
    if t = 0 then Except.error ApiError.validation else Except.ok t

/-- A row of the `verses` table, restricted to the columns the scheduler
reads (models.py lines 47-66); the corpus is an ordered list of these. -/
structure VerseRec where
  id : Nat
  surah_id : Nat
  verse_number_in_surah : Nat
deriving DecidableEq, Inhabited

/-- A row of the `khatms` table, restricted to the columns the scheduler
reads or writes (models.py lines 118-162).  Dates carry day granularity. -/
structure KhatmRec where
  title : String
  description : Option String
  start_day : Int
  end_day : Int
  frequency_type : Freq
  reading_days : Option (List String)
  reading_time : String
  reading_mode : String
  enable_audio_break : Bool
  total_sessions : Nat
  completed_sessions : Nat
  total_verses : Nat
  completed_verses : Nat
  is_active : Bool
  is_completed : Bool
  reminder_minutes_before : Nat
deriving DecidableEq

/-- A row of the `khatm_sessions` table (models.py lines 164-215), restricted
to the columns the scheduler reads or writes.  Timestamps are abstract `Nat`
instants.  Column defaults: `status = "scheduled"`, `verses_read_count = 0`,
nullable `completed_at`/`skipped_at`/`skipped_reason`/`current_verse_id`. -/
structure KhatmSessionRec where
  session_number : Nat
  scheduled_day : Int
  scheduled_time : String
  start_verse_id : Nat
  end_verse_id : Nat
  start_verse_global_number : Nat
  end_verse_global_number : Nat
  verse_count : Nat
  start_surah_id : Nat
  start_verse_in_surah : Nat
  end_surah_id : Nat
  end_verse_in_surah : Nat
  status : String
  completed_at : Option Nat
  skipped_at : Option Nat
  skipped_reason : Option String
  current_verse_id : Option Nat
  verses_read_count : Nat
deriving DecidableEq

/-- The day-qualification check of `generate_khatm_sessions` (khatm.py lines
135-142): a session is created on every day for `daily`, and on days whose
weekday abbreviation occurs in the stored `reading_days` for
`weekly`/`custom` (the stored JSON parses back to the creation list, `[]`
when it was absent). -/
def shouldCreateOn (k : KhatmRec) (day : Int) : Bool :=
  match k.frequency_type with
  | Freq.daily => true
  | Freq.weekly => dayMatches day (k.reading_days.getD [])
  | Freq.custom => dayMatches day (k.reading_days.getD [])

/-- The `while` loop of `generate_khatm_sessions` (khatm.py lines 134-179),
with explicit fuel bounding the number of calendar days examined (the Python
loop walks one calendar day per iteration, unboundedly).  State: `sn` is
`session_number`, `cur` is `current_verse_index`, `day` is `current_date`. -/
def genLoop (k : KhatmRec) (verses : List VerseRec) (base rem : Nat) :
    Nat → Nat → Nat → Int → List KhatmSessionRec
  | 0, _, _, _ => []
  | fuel + 1, sn, cur, day =>
    if sn ≤ k.total_sessions ∧ cur < verses.length then
      if shouldCreateOn k day then
        let cnt := base + (if sn ≤ rem then 1 else 0)
        let endIdx := min (cur + cnt) verses.length
        let sv := verses.getD cur default
        let ev := verses.getD (endIdx - 1) default
        { session_number := sn
          scheduled_day := day
          scheduled_time := k.reading_time
          start_verse_id := sv.id
          end_verse_id := ev.id
          start_verse_global_number := cur + 1
          end_verse_global_number := endIdx
          verse_count := endIdx - cur
          start_surah_id := sv.surah_id
          start_verse_in_surah := sv.verse_number_in_surah
          end_surah_id := ev.surah_id
          end_verse_in_surah := ev.verse_number_in_surah
          status := "scheduled"
          completed_at := none
          skipped_at := none
          skipped_reason := none
          current_verse_id := none
          verses_read_count := 0 } :: genLoop k verses base rem fuel (sn + 1) endIdx (day + 1)
      else genLoop k verses base rem fuel sn cur (day + 1)
    else []

/-- `generate_khatm_sessions` (khatm.py lines 120-181):
`verses_per_session = khatm.total_verses // khatm.total_sessions`,
`remaining_verses = khatm.total_verses % khatm.total_sessions`, then the day
walk starting at `session_number = 1`, `current_verse_index = 0`,
`current_date = khatm.start_date`.  Only reachable with `total_sessions ≠ 0`
(creation validates that), so Lean division by zero is never exercised. -/
def generate_khatm_sessions (fuel : Nat) (k : KhatmRec) (verses : List VerseRec) :
    List KhatmSessionRec :=
  genLoop k verses (k.total_verses / k.total_sessions) (k.total_verses % k.total_sessions)
    fuel 1 0 k.start_day

/-- Request body of the complete endpoint (khatm.py lines 41-43). -/
structure SessionComplete where
  verses_read : Nat
  last_verse_id : Option Nat
deriving DecidableEq

/-- The session-row update of a successful completion (khatm.py lines
403-407). -/
def completedRow (now : Nat) (data : SessionComplete) (s : KhatmSessionRec) :
    KhatmSessionRec :=
  { s with status := "completed", completed_at := some now,
           verses_read_count := data.verses_read,
           current_verse_id := data.last_verse_id }

/-- The session-row update of a successful skip (khatm.py lines 452-454). -/
def skippedRow (now : Nat) (reason : Option String) (s : KhatmSessionRec) :
    KhatmSessionRec :=
  { s with status := "skipped", skipped_at := some now, skipped_reason := reason }

/-- `complete_session` (khatm.py lines 400-419), after the ownership lookup:
reject when the session status is `"completed"`; otherwise mark the session
completed, stamp it, store the caller progress fields, increment the
schedule counters (`completed_verses` by the full `verse_count` of the session), and
mark the schedule completed and inactive when
`completed_sessions >= total_sessions`. -/
def completeSession (now : Nat) (data : SessionComplete)
    (s : KhatmSessionRec) (k : KhatmRec) : Except ApiError (KhatmSessionRec × KhatmRec) :=
  if s.status = "completed" then Except.error ApiError.conflict
  else
    let s' := completedRow now data s
    let k1 := { k with completed_sessions := k.completed_sessions + 1,
                       completed_verses := k.completed_verses + s.verse_count }
    let k2 := if k1.total_sessions ≤ k1.completed_sessions
              then { k1 with is_completed := true, is_active := false }
              else k1
    Except.ok (s', k2)

/-- `skip_session` (khatm.py lines 449-456), after the ownership lookup:
reject when the status is `"completed"` or `"skipped"`; otherwise mark the
session skipped and stamp it.  The schedule row is never touched. -/
def skipSession (now : Nat) (reason : Option String)
    (s : KhatmSessionRec) (k : KhatmRec) : Except ApiError (KhatmSessionRec × KhatmRec) :=
  if s.status = "completed" ∨ s.status = "skipped" then Except.error ApiError.conflict
  else
    Except.ok (skippedRow now reason s, k)

/-- The stored state produced by a raising endpoint: an `HTTPException` is
raised before any mutation, so the database keeps the prior rows. -/
def applyComplete (now : Nat) (data : SessionComplete)
    (s : KhatmSessionRec) (k : KhatmRec) : KhatmSessionRec × KhatmRec :=
  match completeSession now data s k with
  | Except.ok r => r
  | Except.error _ => (s, k)

/-- Like `applyComplete`, for the skip endpoint. -/
def applySkip (now : Nat) (reason : Option String)
    (s : KhatmSessionRec) (k : KhatmRec) : KhatmSessionRec × KhatmRec :=
  match skipSession now reason s k with
  | Except.ok r => r
  | Except.error _ => (s, k)

/-- `round(q, 2)` on an exact rational value (the claims below only evaluate
it away from half-way points, where every rounding convention agrees). -/
def round2 (q : ℚ) : ℚ := (round (q * 100) : ℤ) / 100

/-- `progress_percentage` as computed by the read endpoints (khatm.py lines
201, 266, 543): `completed / total * 100` rounded to 2 decimals, and 0 when
the denominator is 0. -/
def progress_percentage (completed total : Nat) : ℚ :=
  if 0 < total then round2 ((completed : ℚ) * 100 / (total : ℚ)) else 0

/-- Request body of the update endpoint (`KhatmUpdate`, khatm.py lines 32-39).
An outer `none` models a field absent from the request
(`model_dump(exclude_unset=True)` drops it). -/
structure KhatmUpdate where
  title : Option String
  description : Option (Option String)
  reading_time : Option String
  reading_mode : Option String
  enable_audio_break : Option Bool
  reminder_minutes_before : Option Nat
  is_active : Option Bool
deriving DecidableEq

/-- `update_khatm` (khatm.py lines 477-480): `setattr` exactly the fields
present in the request, on the schedule row alone. -/
def updateKhatm (u : KhatmUpdate) (k : KhatmRec) : KhatmRec :=
  { k with
    title := u.title.getD k.title
    description := u.description.getD k.description
    reading_time := u.reading_time.getD k.reading_time
    reading_mode := u.reading_mode.getD k.reading_mode
    enable_audio_break := u.enable_audio_break.getD k.enable_audio_break
    reminder_minutes_before := u.reminder_minutes_before.getD k.reminder_minutes_before
    is_active := u.is_active.getD k.is_active }

/-- The stored state of one schedule: its row and its session rows, in
`session_number` order as produced by the builder. -/
structure KState where
  khatm : KhatmRec
  sessions : List KhatmSessionRec
deriving DecidableEq

/-- The complete endpoint acting on the stored state, addressing the session
by its position: a missing session (404) or a conflict leaves the state
unchanged; otherwise the session row and the schedule row are rewritten. -/
def completeStepAt (now : Nat) (data : SessionComplete) (i : Nat) (st : KState) : KState :=
  match st.sessions.get? i with
  | none => st
  | some s =>
    match completeSession now data s st.khatm with
    | Except.error _ => st
    | Except.ok (s', k') => ⟨k', st.sessions.set i s'⟩

/-- The skip endpoint acting on the stored state. -/
def skipStepAt (now : Nat) (reason : Option String) (i : Nat) (st : KState) : KState :=
  match st.sessions.get? i with
  | none => st
  | some s =>
    match skipSession now reason s st.khatm with
    | Except.error _ => st
    | Except.ok (s', k') => ⟨k', st.sessions.set i s'⟩

/-- The update endpoint acting on the stored state: session rows untouched. -/
def updateStep (u : KhatmUpdate) (st : KState) : KState :=
  ⟨updateKhatm u st.khatm, st.sessions⟩

/-- One sequential application of the complete or skip endpoint. -/
inductive Step : KState → KState → Prop
| complete (now : Nat) (data : SessionComplete) (i : Nat) (st : KState) :
    Step st (completeStepAt now data i st)
| skip (now : Nat) (reason : Option String) (i : Nat) (st : KState) :
    Step st (skipStepAt now reason i st)

/-- States reachable from a given state by sequences of complete/skip calls. -/
inductive Reachable (init : KState) : KState → Prop
| refl : Reachable init init
| tail {st st' : KState} : Reachable init st → Step st st' → Reachable init st'

/-- The number of verses assigned to the first `j` sessions by the even
distribution of step 2 of the builder: `j * base` plus one extra verse for
each of the first `min j rem` sessions. -/
def cumVerses (base rem j : Nat) : Nat := j * base + min j rem

/-- Sessions with status `"completed"` among the stored rows. -/
def countCompleted (l : List KhatmSessionRec) : Nat :=
  (l.filter (fun s => s.status == "completed")).length

/-- The inductive invariant of the progress tracker: the schedule counter
mirrors the number of completed session rows, there are at most
`total_sessions` rows, and once the counter reaches `total_sessions` the
completion flags are set. -/
def Inv (st : KState) : Prop :=
  st.khatm.completed_sessions = countCompleted st.sessions ∧
  st.sessions.length ≤ st.khatm.total_sessions ∧
  (st.khatm.total_sessions ≤ st.khatm.completed_sessions →
    st.khatm.is_completed = true ∧ st.khatm.is_active = false)

/-- A synthetic corpus with the canonical length, for concrete instances. -/
def testCorpus : List VerseRec :=
  (List.range TOTAL_QURAN_VERSES).map (fun i => ⟨i + 1, 1, i + 1⟩)

/-- A concrete daily schedule over two days, as persisted by creation. -/
def testKhatm : KhatmRec :=
  { title := "khatm", description := none, start_day := 0, end_day := 1,
    frequency_type := Freq.daily, reading_days := none, reading_time := "19:00",
    reading_mode := "read_listen", enable_audio_break := true,
    total_sessions := 2, completed_sessions := 0,
    total_verses := TOTAL_QURAN_VERSES, completed_verses := 0,
    is_active := true, is_completed := false, reminder_minutes_before := 30 }

/-- A ten-verse corpus for the remainder-distribution instance. -/
def corpus10 : List VerseRec := (List.range 10).map (fun i => ⟨i + 1, 1, i + 1⟩)

/-- A daily schedule over three days with a ten-verse corpus size. -/
def khatm10 : KhatmRec :=
  { title := "k10", description := none, start_day := 0, end_day := 2,
    frequency_type := Freq.daily, reading_days := none, reading_time := "06:00",
    reading_mode := "read_only", enable_audio_break := false,
    total_sessions := 3, completed_sessions := 0,
    total_verses := 10, completed_verses := 0,
    is_active := true, is_completed := false, reminder_minutes_before := 30 }

/-- A concrete session row in the scheduled state. -/
def scheduledSession : KhatmSessionRec :=
  { session_number := 1, scheduled_day := 0, scheduled_time := "19:00",
    start_verse_id := 1, end_verse_id := 3118,
    start_verse_global_number := 1, end_verse_global_number := 3118,
    verse_count := 3118, start_surah_id := 1, start_verse_in_surah := 1,
    end_surah_id := 1, end_verse_in_surah := 3118, status := "scheduled",
    completed_at := none, skipped_at := none, skipped_reason := none,
    current_verse_id := none, verses_read_count := 0 }

/-- A concrete session row in the skipped state. -/
def skippedSession : KhatmSessionRec :=
  { scheduledSession with status := "skipped", skipped_at := some 5 }

/-- A concrete session row in the completed state. -/
def completedSession : KhatmSessionRec :=
  { scheduledSession with status := "completed", completed_at := some 5 }

/-- An update request with every field absent. -/
def emptyUpdate : KhatmUpdate := ⟨none, none, none, none, none, none, none⟩

/-- The first session row generated for the ten-verse schedule. -/
def khatm10FirstRow : KhatmSessionRec :=
  { session_number := 1, scheduled_day := 0, scheduled_time := "06:00",
    start_verse_id := 1, end_verse_id := 4, start_verse_global_number := 1,
    end_verse_global_number := 4, verse_count := 4, start_surah_id := 1,
    start_verse_in_surah := 1, end_surah_id := 1, end_verse_in_surah := 4,
    status := "scheduled", completed_at := none, skipped_at := none,
    skipped_reason := none, current_verse_id := none, verses_read_count := 0 }

/-! ## Helper lemmas -/

/-- The synthetic corpus has the canonical length. -/
theorem testCorpus_length : testCorpus.length = TOTAL_QURAN_VERSES := by
  simp [testCorpus]

/-- The ten-verse corpus has length ten. -/
theorem corpus10_length : corpus10.length = 10 := by
  simp [corpus10]

/-- No verse is assigned before the first session. -/
theorem cumVerses_zero (base rem : Nat) : cumVerses base rem 0 = 0 := by
  simp [cumVerses]

/-- Session `j + 1` receives `base` verses plus one when `j + 1 ≤ rem`. -/
theorem cumVerses_succ (base rem j : Nat) :
    cumVerses base rem (j + 1) =
      cumVerses base rem j + (base + if j + 1 ≤ rem then 1 else 0) := by
  have hs : (j + 1) * base = j * base + base := Nat.succ_mul j base
  unfold cumVerses
  split <;> omega

/-- The cumulative verse count is monotone in the session index. -/
theorem cumVerses_mono (base rem : Nat) : ∀ i j, i ≤ j →
    cumVerses base rem i ≤ cumVerses base rem j := by
  intro i j h
  unfold cumVerses
  have h1 : i * base ≤ j * base := Nat.mul_le_mul_right base h
  omega

/-- After the last session the whole corpus is assigned. -/
theorem cumVerses_total (base rem T : Nat) (hrem : rem < T) :
    cumVerses base rem T = T * base + rem := by
  unfold cumVerses
  omega

/-- Prefixes of the distribution never exceed the corpus size. -/
theorem cumVerses_le (base rem T j : Nat) (hrem : rem < T) (hj : j ≤ T) :
    cumVerses base rem j ≤ T * base + rem := by
  calc cumVerses base rem j ≤ cumVerses base rem T := cumVerses_mono base rem j T hj
    _ = T * base + rem := cumVerses_total base rem T hrem

/-- Characterization of the generation loop: starting from session `sn` with
the cursor at the verses already assigned to sessions below `sn`, every
produced session row carries the even-distribution range for its session
number, session numbers are consecutive from `sn`, rows are created in the
scheduled state, only while `sn` stays within `total_sessions` and the
cursor strictly inside the corpus; and the produced verse counts sum to the
cursor advance. -/
theorem genLoop_get (k : KhatmRec) (verses : List VerseRec) (base rem : Nat)
    (hbr : k.total_sessions * base + rem = verses.length)
    (hrem : rem < k.total_sessions) :
    ∀ fuel sn cur day, 1 ≤ sn → cur = cumVerses base rem (sn - 1) →
      (∀ i : Nat, ∀ hi : i < (genLoop k verses base rem fuel sn cur day).length,
        ((genLoop k verses base rem fuel sn cur day).get ⟨i, hi⟩).session_number = sn + i ∧
        ((genLoop k verses base rem fuel sn cur day).get ⟨i, hi⟩).start_verse_global_number
          = cumVerses base rem (sn + i - 1) + 1 ∧
        ((genLoop k verses base rem fuel sn cur day).get ⟨i, hi⟩).end_verse_global_number
          = cumVerses base rem (sn + i) ∧
        ((genLoop k verses base rem fuel sn cur day).get ⟨i, hi⟩).verse_count
          = cumVerses base rem (sn + i) - cumVerses base rem (sn + i - 1) ∧
        ((genLoop k verses base rem fuel sn cur day).get ⟨i, hi⟩).status = "scheduled" ∧
        ((genLoop k verses base rem fuel sn cur day).get ⟨i, hi⟩).verses_read_count = 0 ∧
        sn + i ≤ k.total_sessions ∧
        cumVerses base rem (sn + i - 1) < verses.length) ∧
      ((genLoop k verses base rem fuel sn cur day).map KhatmSessionRec.verse_count).sum
        = cumVerses base rem (sn - 1 + (genLoop k verses base rem fuel sn cur day).length)
            - cumVerses base rem (sn - 1) := by
  intro fuel
  induction fuel with
  | zero =>
    intro sn cur day h1 hcur
    constructor
    · intro i hi
      simp [genLoop] at hi
    · simp [genLoop]
  | succ n ih =>
    intro sn cur day h1 hcur
    by_cases hg : sn ≤ k.total_sessions ∧ cur < verses.length
    · by_cases hsc : shouldCreateOn k day = true
      · -- a session is created on this day
        obtain ⟨m, rfl⟩ : ∃ m, sn = m + 1 := ⟨sn - 1, by omega⟩
        have hm : m + 1 - 1 = m := by omega
        rw [hm] at hcur
        have hcnt : cur + (base + if m + 1 ≤ rem then 1 else 0)
            = cumVerses base rem (m + 1) := by
          rw [hcur, ← cumVerses_succ]
        have hle : cumVerses base rem (m + 1) ≤ verses.length := by
          rw [← hbr]
          exact cumVerses_le base rem k.total_sessions (m + 1) hrem hg.1
        have hstep : genLoop k verses base rem (n + 1) (m + 1) cur day =
            { session_number := m + 1
              scheduled_day := day
              scheduled_time := k.reading_time
              start_verse_id := (verses.getD cur default).id
              end_verse_id := (verses.getD (cumVerses base rem (m + 1) - 1) default).id
              start_verse_global_number := cur + 1
              end_verse_global_number := cumVerses base rem (m + 1)
              verse_count := cumVerses base rem (m + 1) - cur
              start_surah_id := (verses.getD cur default).surah_id
              start_verse_in_surah := (verses.getD cur default).verse_number_in_surah
              end_surah_id := (verses.getD (cumVerses base rem (m + 1) - 1) default).surah_id
              end_verse_in_surah :=
                (verses.getD (cumVerses base rem (m + 1) - 1) default).verse_number_in_surah
              status := "scheduled"
              completed_at := none
              skipped_at := none
              skipped_reason := none
              current_verse_id := none
              verses_read_count := 0 } ::
              genLoop k verses base rem n (m + 2) (cumVerses base rem (m + 1)) (day + 1) := by
          simp only [genLoop, if_pos hg, hsc, if_true]
          rw [hcnt, Nat.min_eq_left hle]
        obtain ⟨ihget, ihsum⟩ := ih (m + 2) (cumVerses base rem (m + 1)) (day + 1)
          (by omega) (by simp)
        rw [hstep]
        constructor
        · intro i hi
          match i with
          | 0 =>
            refine ⟨rfl, ?_, rfl, ?_, rfl, rfl, ?_, ?_⟩
            · simp [hcur, hm]
            · simp [hcur, hm]
            · simpa using hg.1
            · rw [hm, ← hcur]; exact hg.2
          | Nat.succ j =>
            have hj : j < (genLoop k verses base rem n (m + 2)
                (cumVerses base rem (m + 1)) (day + 1)).length := by
              simpa using hi
            have heq : m + 2 + j = m + 1 + (j + 1) := by omega
            have heq2 : m + 2 + j - 1 = m + 1 + (j + 1) - 1 := by omega
            obtain ⟨e1, e2, e3, e4, e5, e6, e7, e8⟩ := ihget j hj
            rw [heq] at e1 e3 e7
            rw [heq2] at e2 e8
            rw [heq2, heq] at e4
            exact ⟨by simpa using e1, by simpa using e2, by simpa using e3,
              by simpa using e4, by simpa using e5, by simpa using e6, e7, e8⟩
        · simp only [List.map_cons, List.sum_cons, List.length_cons]
          have hL : m + 2 - 1 = m + 1 := rfl
          rw [hL] at ihsum
          generalize hR : (genLoop k verses base rem n (m + 2)
            (cumVerses base rem (m + 1)) (day + 1)).length = R at ihsum ⊢
          generalize (List.map KhatmSessionRec.verse_count (genLoop k verses base rem n (m + 2)
            (cumVerses base rem (m + 1)) (day + 1))).sum = Ssum at ihsum ⊢
          rw [hm]
          have hidx : m + (R + 1) = m + 1 + R := by omega
          rw [hidx]
          have hmono1 : cumVerses base rem m ≤ cumVerses base rem (m + 1) :=
            cumVerses_mono base rem m (m + 1) (by omega)
          have hmono2 : cumVerses base rem (m + 1) ≤ cumVerses base rem (m + 1 + R) :=
            cumVerses_mono base rem _ _ (by omega)
          rw [hcur]
          omega
      · -- this day does not qualify: advance the date only
        have hstep : genLoop k verses base rem (n + 1) sn cur day =
            genLoop k verses base rem n sn cur (day + 1) := by
          simp only [genLoop, if_pos hg, hsc]
          simp
        rw [hstep]
        exact ih sn cur (day + 1) h1 hcur
    · -- loop guard fails: no further sessions
      have hstep : genLoop k verses base rem (n + 1) sn cur day = [] := by
        simp only [genLoop, if_neg hg]
      rw [hstep]
      constructor
      · intro i hi
        simp at hi
      · simp

/-- Before the last session the cursor is strictly inside the corpus, when
the session count does not exceed the corpus size. -/
theorem cumVerses_lt_of_lt (base rem T N j : Nat) (hbr : T * base + rem = N)
    (hrem : rem < T) (hTN : T ≤ N) (hj : j < T) :
    cumVerses base rem j < N := by
  have hcj : cumVerses base rem j = j * base + min j rem := rfl
  rcases Nat.eq_zero_or_pos base with hb | hb
  · have hTb : T * base = 0 := by rw [hb, Nat.mul_zero]
    omega
  · have h1 : j * base < T * base := Nat.mul_lt_mul_of_pos_right hj hb
    omega

/-- With `daily` frequency every fueled day creates a session, so the run
length is the fuel capped by the remaining session budget. -/
theorem genLoop_length_daily (k : KhatmRec) (verses : List VerseRec) (base rem : Nat)
    (hbr : k.total_sessions * base + rem = verses.length)
    (hrem : rem < k.total_sessions)
    (hTN : k.total_sessions ≤ verses.length)
    (hdaily : k.frequency_type = Freq.daily) :
    ∀ fuel sn cur day, 1 ≤ sn → cur = cumVerses base rem (sn - 1) →
      (genLoop k verses base rem fuel sn cur day).length
        = min (k.total_sessions + 1 - sn) fuel := by
  intro fuel
  induction fuel with
  | zero =>
    intro sn cur day h1 hcur
    simp [genLoop]
  | succ n ih =>
    intro sn cur day h1 hcur
    by_cases hsn : sn ≤ k.total_sessions
    · have hcur_lt : cur < verses.length := by
        rw [hcur]
        exact cumVerses_lt_of_lt base rem k.total_sessions verses.length (sn - 1)
          hbr hrem hTN (by omega)
      have hg : sn ≤ k.total_sessions ∧ cur < verses.length := ⟨hsn, hcur_lt⟩
      have hsc : shouldCreateOn k day = true := by
        simp [shouldCreateOn, hdaily]
      obtain ⟨m, rfl⟩ : ∃ m, sn = m + 1 := ⟨sn - 1, by omega⟩
      have hm : m + 1 - 1 = m := by omega
      rw [hm] at hcur
      have hcnt : cur + (base + if m + 1 ≤ rem then 1 else 0)
          = cumVerses base rem (m + 1) := by
        rw [hcur, ← cumVerses_succ]
      have hle : cumVerses base rem (m + 1) ≤ verses.length := by
        rw [← hbr]
        exact cumVerses_le base rem k.total_sessions (m + 1) hrem hsn
      have hstep : (genLoop k verses base rem (n + 1) (m + 1) cur day).length =
          (genLoop k verses base rem n (m + 2) (cumVerses base rem (m + 1))
            (day + 1)).length + 1 := by
        simp only [genLoop, if_pos hg, hsc, if_true, List.length_cons]
        rw [hcnt, Nat.min_eq_left hle]
      rw [hstep, ih (m + 2) (cumVerses base rem (m + 1)) (day + 1) (by omega) (by simp)]
      omega
    · have hstep : genLoop k verses base rem (n + 1) sn cur day = [] := by
        simp only [genLoop]
        rw [if_neg]
        intro hg
        exact hsn hg.1
      rw [hstep]
      simp
      omega

/-- The two-day daily schedule over the canonical corpus produces both of
its sessions. -/
theorem gen_testKhatm_length :
    (generate_khatm_sessions 2 testKhatm testCorpus).length
      = testKhatm.total_sessions := by
  have hbr : testKhatm.total_sessions *
      (testKhatm.total_verses / testKhatm.total_sessions)
      + testKhatm.total_verses % testKhatm.total_sessions = testCorpus.length := by
    rw [testCorpus_length]
    decide
  have hrem : testKhatm.total_verses % testKhatm.total_sessions
      < testKhatm.total_sessions := by decide
  have hTN : testKhatm.total_sessions ≤ testCorpus.length := by
    rw [testCorpus_length]
    decide
  unfold generate_khatm_sessions
  rw [genLoop_length_daily testKhatm testCorpus _ _ hbr hrem hTN rfl 2 1 0
    testKhatm.start_day (by omega) (by simp [cumVerses])]
  decide

/-- While the cursor is strictly inside the corpus, the next session receives
at least one verse. -/
theorem cumVerses_strict (base rem T N i : Nat) (hbr : T * base + rem = N)
    (hlt : cumVerses base rem i < N) :
    cumVerses base rem i < cumVerses base rem (i + 1) := by
  have hsucc := cumVerses_succ base rem i
  have hci : cumVerses base rem i = i * base + min i rem := rfl
  by_cases hii : i + 1 ≤ rem
  · rw [if_pos hii] at hsucc
    omega
  · rw [if_neg hii] at hsucc
    rcases Nat.eq_zero_or_pos base with hb | hb
    · have hib : i * base = 0 := by rw [hb, Nat.mul_zero]
      have hTb : T * base = 0 := by rw [hb, Nat.mul_zero]
      omega
    · omega

/-- Discrete intermediate value: a point strictly above `f 0` and at most
`f T` lies in one of the `T` consecutive half-open intervals of `f`. -/
theorem exists_mem_interval (f : Nat → Nat) :
    ∀ T p, f 0 < p → p ≤ f T → ∃ j, 1 ≤ j ∧ j ≤ T ∧ f (j - 1) < p ∧ p ≤ f j := by
  intro T
  induction T with
  | zero =>
    intro p h0 hT
    omega
  | succ T ihT =>
    intro p h0 hT
    by_cases hp : p ≤ f T
    · obtain ⟨j, hj⟩ := ihT p h0 hp
      exact ⟨j, hj.1, by omega, hj.2.2⟩
    · exact ⟨T + 1, by omega, Nat.le_refl _, by simpa using Nat.lt_of_not_le hp, hT⟩

/-- The interval of a monotone sequence containing a point is unique. -/
theorem interval_index_unique (f : Nat → Nat) (hmono : ∀ i j, i ≤ j → f i ≤ f j)
    (p i j : Nat) (h1i : 1 ≤ i) (h1j : 1 ≤ j)
    (hi1 : f (i - 1) < p) (hi2 : p ≤ f i) (hj1 : f (j - 1) < p) (hj2 : p ≤ f j) :
    i = j := by
  by_contra hne
  rcases Nat.lt_or_ge i j with h | h
  · have hle : f i ≤ f (j - 1) := hmono i (j - 1) (by omega)
    omega
  · have h2 : j < i := by omega
    have hle : f j ≤ f (i - 1) := hmono j (i - 1) (by omega)
    omega

/-- The loop creates at most `total_sessions + 1 - sn` sessions. -/
theorem genLoop_length_le (k : KhatmRec) (verses : List VerseRec) (base rem : Nat) :
    ∀ fuel sn cur day,
      (genLoop k verses base rem fuel sn cur day).length ≤ k.total_sessions + 1 - sn := by
  intro fuel
  induction fuel with
  | zero =>
    intro sn cur day
    simp [genLoop]
  | succ n ih =>
    intro sn cur day
    by_cases hg : sn ≤ k.total_sessions ∧ cur < verses.length
    · by_cases hsc : shouldCreateOn k day = true
      · have hstep : (genLoop k verses base rem (n + 1) sn cur day).length =
            (genLoop k verses base rem n (sn + 1)
              (min (cur + (base + if sn ≤ rem then 1 else 0)) verses.length)
              (day + 1)).length + 1 := by
          simp only [genLoop, if_pos hg, hsc, if_true, List.length_cons]
        rw [hstep]
        have := ih (sn + 1)
          (min (cur + (base + if sn ≤ rem then 1 else 0)) verses.length) (day + 1)
        omega
      · have hstep : genLoop k verses base rem (n + 1) sn cur day =
            genLoop k verses base rem n sn cur (day + 1) := by
          simp only [genLoop, if_pos hg, hsc]
          simp
        rw [hstep]
        exact ih sn cur (day + 1)
    · simp only [genLoop, if_neg hg, List.length_nil]
      exact Nat.zero_le _

/-- Every generated session row starts in the scheduled state. -/
theorem genLoop_status (k : KhatmRec) (verses : List VerseRec) (base rem : Nat) :
    ∀ fuel sn cur day, ∀ s ∈ genLoop k verses base rem fuel sn cur day,
      s.status = "scheduled" := by
  intro fuel
  induction fuel with
  | zero =>
    intro sn cur day s hs
    simp [genLoop] at hs
  | succ n ih =>
    intro sn cur day s hs
    by_cases hg : sn ≤ k.total_sessions ∧ cur < verses.length
    · by_cases hsc : shouldCreateOn k day = true
      · simp only [genLoop, if_pos hg, hsc, if_true, List.mem_cons] at hs
        rcases hs with rfl | hs
        · rfl
        · exact ih _ _ _ s hs
      · simp only [genLoop, if_pos hg, hsc] at hs
        simp at hs
        exact ih _ _ _ s hs
    · simp [genLoop, if_neg hg] at hs

/-- A full progress ratio rounds to exactly 100. -/
theorem progress_percentage_self (t : Nat) (ht : 0 < t) :
    progress_percentage t t = 100 := by
  have htq : (t : ℚ) ≠ 0 := by exact_mod_cast ht.ne'
  unfold progress_percentage round2
  rw [if_pos ht]
  have h1 : ((t : ℚ) * 100 / (t : ℚ)) = 100 := by field_simp
  rw [h1]
  norm_num

/-- Unfolding of a successful completion: the updated session row, and the
updated schedule row with the completion flags set when the incremented
counter reaches `total_sessions`. -/
theorem completeSession_not_completed (now : Nat) (data : SessionComplete)
    (s : KhatmSessionRec) (k : KhatmRec) (h : s.status ≠ "completed") :
    completeSession now data s k = Except.ok
      (completedRow now data s,
        if k.total_sessions ≤ k.completed_sessions + 1 then
          { k with completed_sessions := k.completed_sessions + 1,
                   completed_verses := k.completed_verses + s.verse_count,
                   is_completed := true, is_active := false }
        else
          { k with completed_sessions := k.completed_sessions + 1,
                   completed_verses := k.completed_verses + s.verse_count }) := by
  unfold completeSession
  rw [if_neg h]

/-- Unfolding of the completed-session count over a cons cell. -/
theorem countCompleted_cons (a : KhatmSessionRec) (l : List KhatmSessionRec) :
    countCompleted (a :: l)
      = (if a.status = "completed" then 1 else 0) + countCompleted l := by
  by_cases h : a.status = "completed" <;>
    simp [countCompleted, List.filter_cons, h] <;> omega

/-- No more sessions are counted completed than exist. -/
theorem countCompleted_le_length (l : List KhatmSessionRec) :
    countCompleted l ≤ l.length :=
  List.length_filter_le _ l

/-- Replacing one row changes the completed count by the difference of the
indicator of the old and new row. -/
theorem countCompleted_set (l : List KhatmSessionRec) : ∀ (i : Nat)
    (s s2 : KhatmSessionRec), l.get? i = some s →
    countCompleted (l.set i s2) + (if s.status = "completed" then 1 else 0)
      = countCompleted l + (if s2.status = "completed" then 1 else 0) := by
  induction l with
  | nil =>
    intro i s s2 h
    simp at h
  | cons a l ih =>
    intro i s s2 h
    match i with
    | 0 =>
      simp only [List.get?_cons_zero, Option.some_inj] at h
      subst h
      simp only [List.set_cons_zero, countCompleted_cons]
      omega
    | Nat.succ j =>
      simp only [List.get?_cons_succ] at h
      simp only [List.set_cons_succ, countCompleted_cons]
      have := ih j s s2 h
      omega

/-- The invariant holds in the state produced by creation: counters at zero,
all rows scheduled, and at most `total_sessions` rows generated. -/
theorem inv_init (fuel : Nat) (k : KhatmRec) (verses : List VerseRec)
    (hT1 : 1 ≤ k.total_sessions) (h0 : k.completed_sessions = 0) :
    Inv ⟨k, generate_khatm_sessions fuel k verses⟩ := by
  unfold Inv
  refine ⟨?_, ?_, ?_⟩
  · rw [h0]
    have hstat := genLoop_status k verses (k.total_verses / k.total_sessions)
      (k.total_verses % k.total_sessions) fuel 1 0 k.start_day
    have : (generate_khatm_sessions fuel k verses).filter
        (fun s => s.status == "completed") = [] := by
      rw [List.filter_eq_nil]
      intro a ha
      have := hstat a ha
      simp [this]
    unfold countCompleted
    rw [this]
    rfl
  · have := genLoop_length_le k verses (k.total_verses / k.total_sessions)
      (k.total_verses % k.total_sessions) fuel 1 0 k.start_day
    unfold generate_khatm_sessions
    simpa using this
  · intro habs
    have h2 : k.total_sessions ≤ k.completed_sessions := habs
    exfalso
    omega

/-- A complete call, at any index and in any outcome, preserves the
invariant. -/
theorem completeStepAt_preserves_inv (now : Nat) (data : SessionComplete)
    (i : Nat) (st : KState) (hinv : Inv st) : Inv (completeStepAt now data i st) := by
  obtain ⟨hc, hl, hf⟩ := hinv
  cases hgs : st.sessions.get? i with
  | none =>
    simp only [completeStepAt, hgs]
    exact ⟨hc, hl, hf⟩
  | some s =>
    by_cases hcomp : s.status = "completed"
    · have herr : completeSession now data s st.khatm
          = Except.error ApiError.conflict := by
        simp [completeSession, hcomp]
      simp only [completeStepAt, hgs, herr]
      exact ⟨hc, hl, hf⟩
    · have hcount := countCompleted_set st.sessions i s (completedRow now data s) hgs
      rw [if_neg hcomp,
        if_pos (show (completedRow now data s).status = "completed" from rfl)] at hcount
      simp only [completeStepAt, hgs,
        completeSession_not_completed now data s st.khatm hcomp]
      by_cases hT : st.khatm.total_sessions ≤ st.khatm.completed_sessions + 1
      · rw [if_pos hT]
        unfold Inv
        refine ⟨?_, ?_, fun _ => ⟨rfl, rfl⟩⟩
        · exact show st.khatm.completed_sessions + 1
            = countCompleted (st.sessions.set i (completedRow now data s)) by omega
        · exact show (st.sessions.set i (completedRow now data s)).length
              ≤ st.khatm.total_sessions by
            rw [List.length_set]
            omega
      · rw [if_neg hT]
        unfold Inv
        refine ⟨?_, ?_, ?_⟩
        · exact show st.khatm.completed_sessions + 1
            = countCompleted (st.sessions.set i (completedRow now data s)) by omega
        · exact show (st.sessions.set i (completedRow now data s)).length
              ≤ st.khatm.total_sessions by
            rw [List.length_set]
            omega
        · intro habs
          have habs2 : st.khatm.total_sessions ≤ st.khatm.completed_sessions + 1 := habs
          exact absurd habs2 hT

/-- A skip call, at any index and in any outcome, preserves the invariant. -/
theorem skipStepAt_preserves_inv (now : Nat) (reason : Option String)
    (i : Nat) (st : KState) (hinv : Inv st) : Inv (skipStepAt now reason i st) := by
  obtain ⟨hc, hl, hf⟩ := hinv
  cases hgs : st.sessions.get? i with
  | none =>
    simp only [skipStepAt, hgs]
    exact ⟨hc, hl, hf⟩
  | some s =>
    by_cases hterm : s.status = "completed" ∨ s.status = "skipped"
    · have herr : skipSession now reason s st.khatm
          = Except.error ApiError.conflict := by
        simp [skipSession, hterm]
      simp only [skipStepAt, hgs, herr]
      exact ⟨hc, hl, hf⟩
    · push_neg at hterm
      have hok : skipSession now reason s st.khatm
          = Except.ok (skippedRow now reason s, st.khatm) := by
        simp [skipSession, hterm.1, hterm.2]
      have hcount := countCompleted_set st.sessions i s (skippedRow now reason s) hgs
      have hskipnc : (skippedRow now reason s).status ≠ "completed" := by
        simp [skippedRow]
      rw [if_neg hterm.1, if_neg hskipnc] at hcount
      simp only [skipStepAt, hgs, hok]
      unfold Inv
      refine ⟨?_, ?_, ?_⟩
      · exact show st.khatm.completed_sessions
          = countCompleted (st.sessions.set i (skippedRow now reason s)) by omega
      · exact show (st.sessions.set i (skippedRow now reason s)).length
            ≤ st.khatm.total_sessions by
          rw [List.length_set]
          omega
      · exact hf

/-- Every sequential complete/skip step preserves the invariant. -/
theorem step_preserves_inv {st st2 : KState} (h : Step st st2) (hinv : Inv st) :
    Inv st2 := by
  cases h with
  | complete now data i st => exact completeStepAt_preserves_inv now data i st hinv
  | skip now reason i st => exact skipStepAt_preserves_inv now reason i st hinv

/-! ## Claims -/

/-- Claim C2, counterexample: in `custom` mode the code returns the number of
non-empty entries of `reading_days`, not the number of matching calendar days.
Over the 14 days starting on a Monday with `reading_days = ["mon"]` the
matching-day count is 2, but the code computes 1. -/
theorem C2_custom_mode_counterexample :
    computeTotalSessions Freq.custom 0 13 (some ["mon"]) = 1 ∧
    countMatchingDays 0 13 ["mon"] = 2 ∧
    computeTotalSessions Freq.custom 0 13 (some ["mon"]) ≠
      (countMatchingDays 0 13 ["mon"] : Int) := by
  refine ⟨by decide, by decide, by decide⟩

/-- Claim C2, amended: `daily` yields the inclusive day count; `weekly` yields
the number of calendar days in range whose weekday abbreviation occurs
case-insensitively in `reading_days`; `custom` with a non-empty list yields
the number of non-empty entries of `reading_days` (ignoring the calendar). -/
theorem C2_total_sessions (startDay endDay : Int) (rd : List String)
    (o : Option (List String)) :
    computeTotalSessions Freq.daily startDay endDay o = endDay - startDay + 1 ∧
    computeTotalSessions Freq.weekly startDay endDay (some rd) =
      (countMatchingDays startDay endDay rd : Int) ∧
    (rd ≠ [] →
      computeTotalSessions Freq.custom startDay endDay (some rd) =
        ((rd.filter (fun d => decide (d ≠ ""))).length : Int)) := by
  refine ⟨rfl, rfl, fun h => ?_⟩
  simp [computeTotalSessions, isFalsy, h]

/-- Claim C2, witness for the amended statement at a concrete input. -/
theorem C2_total_sessions_witness :
    computeTotalSessions Freq.custom 0 13 (some ["mon", ""]) =
      (((["mon", ""].filter (fun d => decide (d ≠ ""))).length : Nat) : Int) :=
  (C2_total_sessions 0 13 ["mon", ""] none).2.2 (by decide)

/-- Claim C8: creation fails with a `ValidationError` exactly when the mode is
weekly or custom with falsy `reading_days`, or the computed `total_sessions`
is 0; on every other input the validation succeeds and hands the computed
`total_sessions` to the persisted schedule. -/
theorem C8_create_validation (freq : Freq) (startDay endDay : Int)
    (rd : Option (List String)) :
    (createKhatmValidate freq startDay endDay rd = Except.error ApiError.validation ↔
      (((freq = Freq.weekly ∨ freq = Freq.custom) ∧ isFalsy rd = true) ∨
        computeTotalSessions freq startDay endDay rd = 0)) ∧
    (¬ (((freq = Freq.weekly ∨ freq = Freq.custom) ∧ isFalsy rd = true) ∨
        computeTotalSessions freq startDay endDay rd = 0) →
      createKhatmValidate freq startDay endDay rd =
        Except.ok (computeTotalSessions freq startDay endDay rd)) := by
  unfold createKhatmValidate
  by_cases h1 : (freq = Freq.weekly ∨ freq = Freq.custom) ∧ isFalsy rd = true
  · simp [h1]
  · by_cases h2 : computeTotalSessions freq startDay endDay rd = 0
    · simp [h1, h2]
    · simp [h1, h2]

/-- Claim C8, witness: a valid daily two-day schedule passes validation with
two sessions. -/
theorem C8_create_validation_witness :
    createKhatmValidate Freq.daily 0 1 none =
      Except.ok (computeTotalSessions Freq.daily 0 1 none) :=
  (C8_create_validation Freq.daily 0 1 none).2 (by decide)

/-- Claim C4: completing a session that is not already completed succeeds,
marks it completed with the timestamp and caller progress fields, increments
`completed_sessions` by one and `completed_verses` by the full `verse_count`
of the session; and once the counter reaches `total_sessions` the schedule is
marked completed and inactive, with a 100.00 progress percentage. -/
theorem C4_complete_session (now : Nat) (data : SessionComplete)
    (s : KhatmSessionRec) (k : KhatmRec) (h : s.status ≠ "completed") :
    ∃ s' k', completeSession now data s k = Except.ok (s', k') ∧
      s'.status = "completed" ∧
      s'.completed_at = some now ∧
      s'.verses_read_count = data.verses_read ∧
      s'.current_verse_id = data.last_verse_id ∧
      k'.completed_sessions = k.completed_sessions + 1 ∧
      k'.completed_verses = k.completed_verses + s.verse_count ∧
      k'.total_sessions = k.total_sessions ∧
      (k.total_sessions ≤ k'.completed_sessions →
        k'.is_completed = true ∧ k'.is_active = false) ∧
      (k'.completed_sessions = k.total_sessions →
        progress_percentage k'.completed_sessions k'.total_sessions = 100) := by
  rw [completeSession_not_completed now data s k h]
  by_cases hc : k.total_sessions ≤ k.completed_sessions + 1
  · rw [if_pos hc]
    refine ⟨_, _, rfl, rfl, rfl, rfl, rfl, rfl, rfl, rfl, fun _ => ⟨rfl, rfl⟩, fun he => ?_⟩
    have he' : k.completed_sessions + 1 = k.total_sessions := he
    have h0 : 0 < k.total_sessions := he' ▸ Nat.succ_pos k.completed_sessions
    show progress_percentage (k.completed_sessions + 1) k.total_sessions = 100
    rw [he']
    exact progress_percentage_self _ h0
  · rw [if_neg hc]
    refine ⟨_, _, rfl, rfl, rfl, rfl, rfl, rfl, rfl, rfl, fun hle => ?_, fun he => ?_⟩
    · exact absurd hle hc
    · exact absurd (Nat.le_of_eq he.symm) hc

/-- Claim C4, witness: completing a scheduled session of the concrete
schedule. -/
theorem C4_complete_session_witness :
    ∃ s' k', completeSession 7 ⟨100, some 42⟩ scheduledSession testKhatm = Except.ok (s', k') ∧
      s'.status = "completed" ∧
      s'.completed_at = some 7 ∧
      s'.verses_read_count = (⟨100, some 42⟩ : SessionComplete).verses_read ∧
      s'.current_verse_id = (⟨100, some 42⟩ : SessionComplete).last_verse_id ∧
      k'.completed_sessions = testKhatm.completed_sessions + 1 ∧
      k'.completed_verses = testKhatm.completed_verses + scheduledSession.verse_count ∧
      k'.total_sessions = testKhatm.total_sessions ∧
      (testKhatm.total_sessions ≤ k'.completed_sessions →
        k'.is_completed = true ∧ k'.is_active = false) ∧
      (k'.completed_sessions = testKhatm.total_sessions →
        progress_percentage k'.completed_sessions k'.total_sessions = 100) :=
  C4_complete_session 7 ⟨100, some 42⟩ scheduledSession testKhatm (by decide)

/-- Claim C5, counterexample: `complete_session` only rejects sessions whose
status is `"completed"`, so it does move a skipped session to completed,
contradicting the claim that no transition leaves the skipped state. -/
theorem C5_terminal_counterexample :
    skippedSession.status = "skipped" ∧
    (applyComplete 0 ⟨3, none⟩ skippedSession testKhatm).1.status = "completed" ∧
    (applyComplete 0 ⟨3, none⟩ skippedSession testKhatm).1.status ≠ skippedSession.status := by
  refine ⟨by decide, by decide, by decide⟩

/-- Claim C5, amended: the completed state is terminal for both operations,
and `skip_session` rejects a skipped session; but `complete_session` does
accept a skipped session (see the counterexample), so only the completed
state is fully terminal. -/
theorem C5_terminal_amended (now : Nat) (data : SessionComplete)
    (reason : Option String) (s : KhatmSessionRec) (k : KhatmRec) :
    (s.status = "completed" →
      completeSession now data s k = Except.error ApiError.conflict ∧
      skipSession now reason s k = Except.error ApiError.conflict) ∧
    (s.status = "skipped" →
      skipSession now reason s k = Except.error ApiError.conflict) := by
  constructor
  · intro h
    constructor
    · simp [completeSession, h]
    · simp [skipSession, h]
  · intro h
    simp [skipSession, h]

/-- Claim C5, witness for the amended statement: both operations reject a
completed session. -/
theorem C5_terminal_amended_witness :
    completeSession 0 ⟨3, none⟩ completedSession testKhatm = Except.error ApiError.conflict ∧
    skipSession 0 none completedSession testKhatm = Except.error ApiError.conflict :=
  (C5_terminal_amended 0 ⟨3, none⟩ none completedSession testKhatm).1 (by decide)

/-- Claim C6: completing an already-completed session is rejected with a
conflict, and the raising endpoint leaves the stored session and schedule
rows exactly as they were. -/
theorem C6_complete_conflict (now : Nat) (data : SessionComplete)
    (s : KhatmSessionRec) (k : KhatmRec) (h : s.status = "completed") :
    completeSession now data s k = Except.error ApiError.conflict ∧
    applyComplete now data s k = (s, k) := by
  constructor
  · simp [completeSession, h]
  · simp [applyComplete, completeSession, h]

/-- Claim C6, witness: a second completion of the concrete completed session
is rejected and changes nothing. -/
theorem C6_complete_conflict_witness :
    completeSession 9 ⟨1, none⟩ completedSession testKhatm = Except.error ApiError.conflict ∧
    applyComplete 9 ⟨1, none⟩ completedSession testKhatm = (completedSession, testKhatm) :=
  C6_complete_conflict 9 ⟨1, none⟩ completedSession testKhatm (by decide)

/-- Claim C7: skipping a session that is neither completed nor skipped
succeeds, sets exactly the skip fields on the session row and returns the
schedule row untouched (so `completed_sessions` and `completed_verses` never
change); skipping a completed or skipped session is rejected with a conflict
and changes nothing. -/
theorem C7_skip_session (now : Nat) (reason : Option String)
    (s : KhatmSessionRec) (k : KhatmRec) :
    (s.status ≠ "completed" ∧ s.status ≠ "skipped" →
      skipSession now reason s k = Except.ok (skippedRow now reason s, k)) ∧
    (s.status = "completed" ∨ s.status = "skipped" →
      skipSession now reason s k = Except.error ApiError.conflict ∧
      applySkip now reason s k = (s, k)) := by
  constructor
  · intro h
    simp [skipSession, h.1, h.2]
  · intro h
    constructor
    · simp [skipSession, h]
    · simp [applySkip, skipSession, h]

/-- Claim C7, witness: skipping the concrete scheduled session. -/
theorem C7_skip_session_witness :
    skipSession 7 (some "busy") scheduledSession testKhatm =
      Except.ok (skippedRow 7 (some "busy") scheduledSession, testKhatm) :=
  (C7_skip_session 7 (some "busy") scheduledSession testKhatm).1 (by decide)

/-- Claim C10: the update endpoint rewrites only the settings fields present
in the request; the computed plan (`total_sessions`, dates, counters,
completion flag, verse totals) and every session row keep their prior
values, and each absent settings field also keeps its prior value. -/
theorem C10_update_frame (u : KhatmUpdate) (st : KState) :
    (updateStep u st).sessions = st.sessions ∧
    (updateStep u st).khatm.total_sessions = st.khatm.total_sessions ∧
    (updateStep u st).khatm.completed_sessions = st.khatm.completed_sessions ∧
    (updateStep u st).khatm.total_verses = st.khatm.total_verses ∧
    (updateStep u st).khatm.completed_verses = st.khatm.completed_verses ∧
    (updateStep u st).khatm.is_completed = st.khatm.is_completed ∧
    (updateStep u st).khatm.start_day = st.khatm.start_day ∧
    (updateStep u st).khatm.end_day = st.khatm.end_day ∧
    (updateStep u st).khatm.frequency_type = st.khatm.frequency_type ∧
    (updateStep u st).khatm.reading_days = st.khatm.reading_days ∧
    (u.title = none → (updateStep u st).khatm.title = st.khatm.title) ∧
    (u.description = none → (updateStep u st).khatm.description = st.khatm.description) ∧
    (u.reading_time = none → (updateStep u st).khatm.reading_time = st.khatm.reading_time) ∧
    (u.reading_mode = none → (updateStep u st).khatm.reading_mode = st.khatm.reading_mode) ∧
    (u.enable_audio_break = none →
      (updateStep u st).khatm.enable_audio_break = st.khatm.enable_audio_break) ∧
    (u.reminder_minutes_before = none →
      (updateStep u st).khatm.reminder_minutes_before = st.khatm.reminder_minutes_before) ∧
    (u.is_active = none → (updateStep u st).khatm.is_active = st.khatm.is_active) := by
  refine ⟨rfl, rfl, rfl, rfl, rfl, rfl, rfl, rfl, rfl, rfl,
    ?_, ?_, ?_, ?_, ?_, ?_, ?_⟩ <;>
    (intro h; simp [updateStep, updateKhatm, h])

/-- Per-index description of the generated rows for a run from the initial
loop state, for a general distribution pair `(base, rem)` covering the
corpus: fields, strictness and bounds of the cumulative ranges. -/
theorem genLoop_facts (k : KhatmRec) (verses : List VerseRec) (base rem : Nat)
    (hbr : k.total_sessions * base + rem = verses.length)
    (hrem : rem < k.total_sessions) (fuel : Nat) :
    ∀ i : Nat, ∀ hi : i < (genLoop k verses base rem fuel 1 0 k.start_day).length,
      ((genLoop k verses base rem fuel 1 0 k.start_day).get ⟨i, hi⟩).session_number
        = 1 + i ∧
      ((genLoop k verses base rem fuel 1 0 k.start_day).get
          ⟨i, hi⟩).start_verse_global_number = cumVerses base rem i + 1 ∧
      ((genLoop k verses base rem fuel 1 0 k.start_day).get
          ⟨i, hi⟩).end_verse_global_number = cumVerses base rem (i + 1) ∧
      ((genLoop k verses base rem fuel 1 0 k.start_day).get ⟨i, hi⟩).verse_count
        = cumVerses base rem (i + 1) - cumVerses base rem i ∧
      cumVerses base rem i < cumVerses base rem (i + 1) ∧
      cumVerses base rem (i + 1) ≤ verses.length ∧
      1 + i ≤ k.total_sessions := by
  obtain ⟨hget, _⟩ := genLoop_get k verses base rem hbr hrem fuel 1 0 k.start_day
    (by omega) (by simp [cumVerses])
  intro i hi
  obtain ⟨e1, e2, e3, e4, _, _, e7, e8⟩ := hget i hi
  have hidx : 1 + i - 1 = i := by omega
  have hidx2 : 1 + i = i + 1 := by omega
  rw [hidx] at e2 e4 e8
  rw [hidx2] at e3 e4
  have hstrict : cumVerses base rem i < cumVerses base rem (i + 1) :=
    cumVerses_strict base rem k.total_sessions verses.length i hbr e8
  have hub : cumVerses base rem (i + 1) ≤ verses.length := by
    rw [← hbr]
    exact cumVerses_le base rem k.total_sessions (i + 1) hrem (by omega)
  exact ⟨e1, e2, e3, e4, hstrict, hub, e7⟩

/-- The partition property of a full run of the loop, for a general
distribution pair covering the canonical corpus. -/
theorem genLoop_partition (k : KhatmRec) (verses : List VerseRec) (base rem : Nat)
    (hbr : k.total_sessions * base + rem = verses.length)
    (hrem : rem < k.total_sessions)
    (hN : verses.length = TOTAL_QURAN_VERSES) (fuel : Nat)
    (hlen : (genLoop k verses base rem fuel 1 0 k.start_day).length
      = k.total_sessions) :
    ((genLoop k verses base rem fuel 1 0 k.start_day).map
        KhatmSessionRec.session_number = List.range' 1 k.total_sessions) ∧
    (∀ s ∈ genLoop k verses base rem fuel 1 0 k.start_day,
      s.verse_count = s.end_verse_global_number - s.start_verse_global_number + 1 ∧
      1 ≤ s.start_verse_global_number ∧
      s.start_verse_global_number ≤ s.end_verse_global_number ∧
      s.end_verse_global_number ≤ TOTAL_QURAN_VERSES) ∧
    (∀ i : Nat, ∀ h2 : i + 1 < (genLoop k verses base rem fuel 1 0 k.start_day).length,
      ((genLoop k verses base rem fuel 1 0 k.start_day).get
          ⟨i + 1, h2⟩).start_verse_global_number
        = ((genLoop k verses base rem fuel 1 0 k.start_day).get
            ⟨i, Nat.lt_of_succ_lt h2⟩).end_verse_global_number + 1) ∧
    (((genLoop k verses base rem fuel 1 0 k.start_day).map
        KhatmSessionRec.verse_count).sum = TOTAL_QURAN_VERSES) ∧
    (∀ p : Nat, 1 ≤ p → p ≤ TOTAL_QURAN_VERSES →
      ∃! s, s ∈ genLoop k verses base rem fuel 1 0 k.start_day ∧
        s.start_verse_global_number ≤ p ∧ p ≤ s.end_verse_global_number) := by
  have hfacts := genLoop_facts k verses base rem hbr hrem fuel
  have hmono := cumVerses_mono base rem
  have hTN : cumVerses base rem k.total_sessions = TOTAL_QURAN_VERSES := by
    rw [cumVerses_total base rem k.total_sessions hrem, hbr, hN]
  obtain ⟨_, hsum⟩ := genLoop_get k verses base rem hbr hrem fuel 1 0 k.start_day
    (by omega) (by simp [cumVerses])
  set G := genLoop k verses base rem fuel 1 0 k.start_day with hG
  refine ⟨?_, ?_, ?_, ?_, ?_⟩
  · refine List.ext_getElem (by simp [hlen]) ?_
    intro i hi1 hi2
    have hiG : i < G.length := by simpa using hi1
    rw [List.getElem_map, List.getElem_range'_1]
    have h := (hfacts i hiG).1
    rw [List.get_eq_getElem] at h
    exact h
  · intro s hs
    rcases List.mem_iff_get.mp hs with ⟨⟨i, hiG⟩, rfl⟩
    obtain ⟨e1, e2, e3, e4, e5, e6, e7⟩ := hfacts i hiG
    refine ⟨by omega, by omega, by omega, by omega⟩
  · intro i h2
    obtain ⟨_, f2, _, _, _, _, _⟩ := hfacts (i + 1) h2
    obtain ⟨_, _, g3, _, _, _, _⟩ := hfacts i (Nat.lt_of_succ_lt h2)
    rw [f2, g3]
  · rw [hsum]
    have h : 1 - 1 + G.length = k.total_sessions := by omega
    rw [h, hTN]
    simp [cumVerses]
  · intro p hp1 hp2
    obtain ⟨j, hj1, hjT, hjlo, hjhi⟩ := exists_mem_interval (cumVerses base rem)
      k.total_sessions p (by simpa [cumVerses] using hp1) (by rwa [hTN])
    have hjG : j - 1 < G.length := by omega
    obtain ⟨e1, e2, e3, _, _, _, _⟩ := hfacts (j - 1) hjG
    have hj1e : j - 1 + 1 = j := by omega
    rw [hj1e] at e3
    refine ⟨G.get ⟨j - 1, hjG⟩, ⟨List.get_mem G (j - 1) hjG, by omega, by omega⟩, ?_⟩
    rintro s2 ⟨hmem, hlo, hhi⟩
    rcases List.mem_iff_get.mp hmem with ⟨⟨i2, hi2⟩, rfl⟩
    obtain ⟨f1, f2, f3, _, _, _, _⟩ := hfacts i2 hi2
    have hij : i2 + 1 = j := by
      refine interval_index_unique (cumVerses base rem) hmono p (i2 + 1) j
        (by omega) hj1 ?_ ?_ hjlo hjhi
      · have h2 : i2 + 1 - 1 = i2 := by omega
        rw [h2]
        omega
      · omega
    have hieq : i2 = j - 1 := by omega
    subst hieq
    rfl

/-- Claim C1: for a valid creation input (total_sessions at least 1, the
corpus carrying the canonical 6236 verses) and absent the degenerate
early-stop (all `total_sessions` rows were produced), the generated ranges,
in session_number order, are contiguous, cover exactly the global positions
1..6236 with each position in exactly one session, the verse counts sum to
6236, and each row satisfies
`verse_count = end_verse_global_number - start_verse_global_number + 1`. -/
theorem C1_partition (fuel : Nat) (k : KhatmRec) (verses : List VerseRec)
    (h1 : 1 ≤ k.total_sessions)
    (hv : k.total_verses = verses.length)
    (hN : verses.length = TOTAL_QURAN_VERSES)
    (hlen : (generate_khatm_sessions fuel k verses).length = k.total_sessions) :
    ((generate_khatm_sessions fuel k verses).map KhatmSessionRec.session_number
        = List.range' 1 k.total_sessions) ∧
    (∀ s ∈ generate_khatm_sessions fuel k verses,
      s.verse_count = s.end_verse_global_number - s.start_verse_global_number + 1 ∧
      1 ≤ s.start_verse_global_number ∧
      s.start_verse_global_number ≤ s.end_verse_global_number ∧
      s.end_verse_global_number ≤ TOTAL_QURAN_VERSES) ∧
    (∀ i : Nat, ∀ h2 : i + 1 < (generate_khatm_sessions fuel k verses).length,
      ((generate_khatm_sessions fuel k verses).get
          ⟨i + 1, h2⟩).start_verse_global_number
        = ((generate_khatm_sessions fuel k verses).get
            ⟨i, Nat.lt_of_succ_lt h2⟩).end_verse_global_number + 1) ∧
    (((generate_khatm_sessions fuel k verses).map KhatmSessionRec.verse_count).sum
        = TOTAL_QURAN_VERSES) ∧
    (∀ p : Nat, 1 ≤ p → p ≤ TOTAL_QURAN_VERSES →
      ∃! s, s ∈ generate_khatm_sessions fuel k verses ∧
        s.start_verse_global_number ≤ p ∧ p ≤ s.end_verse_global_number) := by
  have hbr : k.total_sessions * (k.total_verses / k.total_sessions)
      + k.total_verses % k.total_sessions = verses.length := by
    rw [Nat.div_add_mod]
    exact hv
  have hrem : k.total_verses % k.total_sessions < k.total_sessions :=
    Nat.mod_lt _ (by omega)
  unfold generate_khatm_sessions at hlen ⊢
  exact genLoop_partition k verses (k.total_verses / k.total_sessions)
    (k.total_verses % k.total_sessions) hbr hrem hN fuel hlen

/-- Claim C1, witness: a two-session daily schedule over the canonical
corpus (the generation produces both sessions, so the partition guarantee
applies). -/
theorem C1_partition_witness :
    ((generate_khatm_sessions 2 testKhatm testCorpus).map
        KhatmSessionRec.session_number = List.range' 1 testKhatm.total_sessions) ∧
    (∀ s ∈ generate_khatm_sessions 2 testKhatm testCorpus,
      s.verse_count = s.end_verse_global_number - s.start_verse_global_number + 1 ∧
      1 ≤ s.start_verse_global_number ∧
      s.start_verse_global_number ≤ s.end_verse_global_number ∧
      s.end_verse_global_number ≤ TOTAL_QURAN_VERSES) ∧
    (∀ i : Nat, ∀ h2 : i + 1 < (generate_khatm_sessions 2 testKhatm testCorpus).length,
      ((generate_khatm_sessions 2 testKhatm testCorpus).get
          ⟨i + 1, h2⟩).start_verse_global_number
        = ((generate_khatm_sessions 2 testKhatm testCorpus).get
            ⟨i, Nat.lt_of_succ_lt h2⟩).end_verse_global_number + 1) ∧
    (((generate_khatm_sessions 2 testKhatm testCorpus).map
        KhatmSessionRec.verse_count).sum = TOTAL_QURAN_VERSES) ∧
    (∀ p : Nat, 1 ≤ p → p ≤ TOTAL_QURAN_VERSES →
      ∃! s, s ∈ generate_khatm_sessions 2 testKhatm testCorpus ∧
        s.start_verse_global_number ≤ p ∧ p ≤ s.end_verse_global_number) :=
  C1_partition 2 testKhatm testCorpus (by decide)
    (by rw [testCorpus_length]; rfl) (by rw [testCorpus_length]) gen_testKhatm_length

/-- The verse-count formula for every generated row, for a general
distribution pair covering the corpus. -/
theorem genLoop_counts (k : KhatmRec) (verses : List VerseRec) (base rem : Nat)
    (hbr : k.total_sessions * base + rem = verses.length)
    (hrem : rem < k.total_sessions) (fuel : Nat) :
    ∀ s ∈ genLoop k verses base rem fuel 1 0 k.start_day,
      s.verse_count = base + (if s.session_number ≤ rem then 1 else 0) := by
  have hfacts := genLoop_facts k verses base rem hbr hrem fuel
  intro s hs
  rcases List.mem_iff_get.mp hs with ⟨⟨i, hiG⟩, rfl⟩
  obtain ⟨e1, _, _, e4, _, _, _⟩ := hfacts i hiG
  rw [e1, e4]
  have hc := cumVerses_succ base rem i
  by_cases hii : 1 + i ≤ rem
  · rw [if_pos hii]
    rw [if_pos (by omega : i + 1 ≤ rem)] at hc
    omega
  · rw [if_neg hii]
    rw [if_neg (by omega : ¬ (i + 1 ≤ rem))] at hc
    omega

/-- Claim C3: every generated session row receives
`base = total_verses / total_sessions` verses plus one exactly when its
session number is at most `total_verses % total_sessions`; in particular a
10-verse corpus split into 3 sessions yields verse counts `[4, 3, 3]`. -/
theorem C3_remainder_distribution (fuel : Nat) (k : KhatmRec) (verses : List VerseRec)
    (hN1 : 1 ≤ verses.length) (hT1 : 1 ≤ k.total_sessions)
    (hv : k.total_verses = verses.length) :
    (∀ s ∈ generate_khatm_sessions fuel k verses,
      s.verse_count = k.total_verses / k.total_sessions +
        (if s.session_number ≤ k.total_verses % k.total_sessions then 1 else 0)) ∧
    (generate_khatm_sessions 3 khatm10 corpus10).map KhatmSessionRec.verse_count
      = [4, 3, 3] := by
  constructor
  · have hbr : k.total_sessions * (k.total_verses / k.total_sessions)
        + k.total_verses % k.total_sessions = verses.length := by
      rw [Nat.div_add_mod]
      exact hv
    have hrem : k.total_verses % k.total_sessions < k.total_sessions :=
      Nat.mod_lt _ (by omega)
    unfold generate_khatm_sessions
    exact genLoop_counts k verses (k.total_verses / k.total_sessions)
      (k.total_verses % k.total_sessions) hbr hrem fuel
  · decide

/-- Claim C3, witness: the remainder formula at the first generated row of
the ten-verse schedule. -/
theorem C3_remainder_distribution_witness :
    khatm10FirstRow.verse_count
      = khatm10.total_verses / khatm10.total_sessions +
        (if khatm10FirstRow.session_number
            ≤ khatm10.total_verses % khatm10.total_sessions then 1 else 0) :=
  (C3_remainder_distribution 3 khatm10 corpus10 (by decide) (by decide)
    (by decide)).1 khatm10FirstRow (by decide)

/-- Claim C9: every state reachable by sequential complete/skip calls from a
created schedule (counter at zero, rows freshly generated, at least one
session) satisfies `completed_sessions ≤ total_sessions`, and whenever the
counter equals `total_sessions` the schedule is marked completed and
inactive. -/
theorem C9_schedule_invariant (fuel : Nat) (k : KhatmRec) (verses : List VerseRec)
    (st : KState)
    (hr : Reachable ⟨k, generate_khatm_sessions fuel k verses⟩ st)
    (hT1 : 1 ≤ k.total_sessions) (h0 : k.completed_sessions = 0) :
    st.khatm.completed_sessions ≤ st.khatm.total_sessions ∧
    (st.khatm.completed_sessions = st.khatm.total_sessions →
      st.khatm.is_completed = true ∧ st.khatm.is_active = false) := by
  have hinv : Inv st := by
    induction hr with
    | refl => exact inv_init fuel k verses hT1 h0
    | tail hr hstep ih => exact step_preserves_inv hstep ih
  obtain ⟨hc, hl, hf⟩ := hinv
  have hcl : countCompleted st.sessions ≤ st.sessions.length :=
    countCompleted_le_length st.sessions
  refine ⟨by omega, fun he => hf (by omega)⟩

/-- Claim C9, witness: the invariant at the freshly created concrete
schedule. -/
theorem C9_schedule_invariant_witness :
    testKhatm.completed_sessions ≤ testKhatm.total_sessions ∧
    (testKhatm.completed_sessions = testKhatm.total_sessions →
      testKhatm.is_completed = true ∧ testKhatm.is_active = false) :=
  C9_schedule_invariant 2 testKhatm testCorpus
    ⟨testKhatm, generate_khatm_sessions 2 testKhatm testCorpus⟩
    Reachable.refl (by decide) (by decide)

/-- Claim C10, witness: the empty update leaves the title unchanged. -/
theorem C10_update_frame_witness :
    (updateStep emptyUpdate ⟨testKhatm, []⟩).khatm.title = testKhatm.title := by
  obtain ⟨-, -, -, -, -, -, -, -, -, -, h, -⟩ := C10_update_frame emptyUpdate ⟨testKhatm, []⟩
  exact h rfl

end QuranApp
